import Mathlib

/-!
Shallow embedding of the form-decoding library (package `form`).

The embedding follows the source file holding the `Decode` entry point, the
error types (`InvalidDecoderError`, `DecodeErrors`), the registration surface
and the index-record types (`key`, `recursiveData`).  The recursive traversal
(`traverseStruct` / `setFieldByType`), the struct cache and the index scanner
are not part of the repository snapshot; where a claim depends on them they
are modelled from the specification, and each such definition carries a doc
comment starting with `Modelled from the spec:`.

Go machine integers are modelled as `Nat`/`Int`; Go strings as Lean `String`
(`List Char` underneath); `url.Values` as an association list from keys to
value lists; `nil`-able results as `Option`.  Go maps passed by reference
(the optional output-collection sink `collectGoValues`) are modelled by an
identifier (`Nat`) naming the map object, with writes through the reference
recorded as an explicit event list.
-/

namespace Form

/-- Kinds of Go reflect values, as far as `Decode` inspects them
(`reflect.Ptr`, `reflect.Struct`, the invalid kind of `reflect.ValueOf(nil)`,
anything else). -/
inductive GoKind where
  | kinvalid
  | kptr
  | kstruct
  | kother
deriving DecidableEq

/-- A Go type as seen through `reflect.Type`: its `String()` rendering and
its kind. -/
structure GoType where
  name : String
  kind : GoKind
deriving DecidableEq

/-- The pointer type `*t`; `reflect.TypeOf` of a (possibly nil) pointer to a
`t` value renders as `"*" + t.String()` and has pointer kind. -/
def ptrTo (t : GoType) : GoType :=
  ⟨"*" ++ t.name, GoKind.kptr⟩

/-- The distinguished type `time.Time` (struct kind), compared against in
`Decode` (`typ != timeType`). -/
def timeType : GoType :=
  ⟨"time.Time", GoKind.kstruct⟩

/-- The dynamic argument passed to `Decode` as `interface{}`: the untyped nil
interface, a non-pointer value of some type, a typed nil pointer, or a
non-nil pointer to a value of the element type. -/
inductive GoTarget where
  | nilAny : GoTarget
  | plainValue : GoType → GoTarget
  | nilPtr : GoType → GoTarget
  | ptr : GoType → GoTarget
deriving DecidableEq

/-- `reflect.TypeOf(v)`: `nil` (modelled `none`) for the untyped nil
interface, otherwise the dynamic type. -/
def GoTarget.typeOf : GoTarget → Option GoType
  | .nilAny => none
  | .plainValue t => some t
  | .nilPtr e => some (ptrTo e)
  | .ptr e => some (ptrTo e)

/-- `reflect.ValueOf(v).Kind()`: the invalid kind for the untyped nil
interface, pointer kind for pointers, otherwise the value's kind. -/
def GoTarget.kindOf : GoTarget → GoKind
  | .nilAny => GoKind.kinvalid
  | .plainValue t => t.kind
  | .nilPtr _ => GoKind.kptr
  | .ptr _ => GoKind.kptr

/-- `reflect.ValueOf(v).IsNil()` for the pointer-kinded cases reached by the
guard in `Decode`. -/
def GoTarget.isNilPtrVal : GoTarget → Bool
  | .nilPtr _ => true
  | _ => false

/-- `val.Elem().Type()` for a pointer target (only consulted after the guard
in `Decode` has established a non-nil pointer). -/
def GoTarget.elemType : GoTarget → GoType
  | .ptr e => e
  | .nilPtr e => e
  | _ => ⟨"", GoKind.kother⟩

/-- `(*InvalidDecoderError).Error()`: `"form: Decode(nil)"` when the recorded
type is nil, `"form: Decode(non-pointer T)"` for a non-pointer recorded type,
`"form: Decode(nil T)"` for a pointer recorded type. -/
def invalidDecoderErrorMessage : Option GoType → String
  | none => "form: Decode(nil)"
  | some t =>
    if t.kind ≠ GoKind.kptr then
      "form: Decode(non-pointer " ++ t.name ++ ")"
    else
      "form: Decode(nil " ++ t.name ++ ")"

/-- One parsed index token (source type `key`): its integer value when
numeric (`-1` otherwise, per the spec's IndexKey description), its raw string
form, and the full search key it was derived from. -/
structure key where
  ivalue : Int
  value : String
  searchValue : String
deriving DecidableEq

/-- One collection-resolution record (source type `recursiveData`): the
prefix being resolved (source field `alias`, a Lean keyword, hence
`aliasName`), the discovered length, and the parsed keys. -/
structure recursiveData where
  aliasName : String
  sliceLen : Nat
  keys : List key
deriving DecidableEq

/-- Go `unicode.IsSpace` restricted to the ASCII range (all strings in this
development are ASCII): space, tab, newline, vertical tab, form feed,
carriage return. -/
def isSpaceGo (c : Char) : Bool :=
  c = ' ' || c = '\t' || c = '\n' || c = '\x0B' || c = '\x0C' || c = '\r'

/-- Removal of trailing whitespace from a character list. -/
def trimEndSpace (l : List Char) : List Char :=
  (l.reverse.dropWhile isSpaceGo).reverse

/-- Go `strings.TrimSpace`: drop leading and trailing whitespace. -/
def trimSpaceGo (s : String) : String :=
  String.mk (trimEndSpace (s.data.dropWhile isSpaceGo))

/-- Modelled from the spec: the `blank` constant referenced by
`DecodeErrors.Error` is declared in a source file absent from the snapshot;
it is the initial (empty) buffer contents. -/
def blank : String := ""

/-- Modelled from the spec: the `fieldNS` line-label constant referenced by
`DecodeErrors.Error` is declared in a source file absent from the snapshot;
modelled as the upstream label, a string whose first character is not
whitespace. -/
def fieldNS : String := "Field Namespace:"

/-- Modelled from the spec: the `errorText` separator constant referenced by
`DecodeErrors.Error` is declared in a source file absent from the
snapshot. -/
def errorText : String := " ERROR:"

/-- `DecodeErrors.Error()`: for each recorded (path, error) pair append
`fieldNS + path + errorText + message + "\n"` to a buffer started at `blank`,
then `strings.TrimSpace` the result.  The Go map is modelled as an
association list in some iteration order. -/
def decodeErrorsRender (d : List (String × String)) : String :=
  trimSpaceGo (d.foldl (fun buff kv => buff ++ fieldNS ++ kv.1 ++ errorText ++ kv.2 ++ "\n") blank)

/-- What the (absent) recursive traversal produces during one decode call:
the per-field errors it records into `dec.errs`, the leaf values it would
mirror into the attached output-collection sink, and the index records left
in `dec.dm`.  `Decode` itself treats the traversal as a black box. -/
structure TraversalOutcome where
  errs : List (String × String)
  sinkWrites : List (String × String)
  dms : List recursiveData
deriving DecidableEq

/-- The pooled scratch decode context (source type `decoder`), with the
fields `Decode` manipulates: the input mapping, the index records `dm`, the
namespace buffer, the accumulated error set (`nil` modelled as `[]`), the
output-collection sink reference `goValues` (`Option` of a map identifier),
and the `dmDone` flag.  The generic `decodeFuncArgument` field is
value-irrelevant to every claim and omitted. -/
structure DecoderCtx where
  values : List (String × List String)
  dm : List recursiveData
  namespaceBuf : List Char
  errs : List (String × String)
  goValues : Option Nat
  dmDone : Bool
deriving DecidableEq

/-- The value `Decode` returns: an `InvalidDecoderError` carrying the
recorded type, `nil`, or the composite `DecodeErrors`. -/
inductive DecodeResult where
  | invalidTarget : Option GoType → DecodeResult
  | ok : DecodeResult
  | fieldErrors : List (String × String) → DecodeResult
deriving DecidableEq

/-- Everything observable about one `Decode` call: the scratch context as put
back into the pool, the returned error value, and the writes performed
through the attached sink reference (sink identifier, path, value). -/
structure DecodeOut where
  ctx : DecoderCtx
  result : DecodeResult
  sinkPuts : List (Nat × String × String)
deriving DecidableEq

/-- `(*Decoder).Decode`: reject a target that is not a non-nil pointer with
an `InvalidDecoderError` recording `reflect.TypeOf(v)`; otherwise take the
context from the pool, install the input mapping, truncate `dm`, attach the
first supplied sink only when the pointee is a struct other than `time.Time`,
run the traversal (black-boxed as `tr`), return the accumulated errors as the
composite iff non-empty (clearing the field), reset `dmDone` and put the
context back.  Mirrored writes reach whatever sink reference the context
holds at that point. -/
def Decode (ctx : DecoderCtx) (target : GoTarget)
    (values : List (String × List String)) (collectGoValues : List Nat)
    (tr : TraversalOutcome) : DecodeOut :=
  if target.kindOf ≠ GoKind.kptr ∨ target.isNilPtrVal = true then
    ⟨ctx, DecodeResult.invalidTarget target.typeOf, []⟩
  else
    let dec0 : DecoderCtx := { ctx with values := values, dm := [] }
    let elem := target.elemType
    let dec1 : DecoderCtx :=
      if (elem.kind = GoKind.kstruct ∧ elem ≠ timeType) ∧ collectGoValues ≠ [] then
        { dec0 with goValues := collectGoValues.head? }
      else dec0
    let errsAfter := dec1.errs ++ tr.errs
    let puts :=
      match dec1.goValues with
      | some s => tr.sinkWrites.map (fun kv => (s, kv.1, kv.2))
      | none => []
    let dec2 : DecoderCtx :=
      { dec1 with
        dm := tr.dms
        errs := if errsAfter ≠ [] then [] else errsAfter
        dmDone := false }
    let res := if errsAfter ≠ [] then DecodeResult.fieldErrors errsAfter else DecodeResult.ok
    ⟨dec2, res, puts⟩

/-- A fresh pool context, as built by the pool's `New` function (empty
buffers, no sink, clear flags). -/
def emptyCtx : DecoderCtx :=
  ⟨[], [], [], [], none, false⟩

/-- A traversal that records nothing (used to instantiate theorems). -/
def emptyTr : TraversalOutcome :=
  ⟨[], [], []⟩

/-- Whether `pat` is an initial segment of `l` (character-wise equality). -/
def leadsWith : List Char → List Char → Bool
  | [], _ => true
  | _ :: _, [] => false
  | a :: as, b :: bs => a = b && leadsWith as bs

/-- The numeric value of a digit string, most significant digit first. -/
def digitsToNat (l : List Char) : Nat :=
  l.foldl (fun a c => a * 10 + (c.toNat - '0'.toNat)) 0

/-- A token parses as a numeric index iff it is a non-empty all-digit
string. -/
def natToken (l : List Char) : Option Nat :=
  if l ≠ [] ∧ l.all Char.isDigit then some (digitsToNat l) else none

/-- Modelled from the spec: the Index Collector's token extraction (design
section 4.3); the source scanner filling `key`/`recursiveData` is not in the
repository snapshot.  A mapping key contributes a token for a given
collection path iff it begins with that path followed by an opening bracket,
and the token is the bracketed text up to the matching closing bracket. -/
def bracketToken (pfx k : List Char) : Option (List Char) :=
  if leadsWith (pfx ++ ['[']) k then
    let rest := k.drop (pfx.length + 1)
    if rest.any (fun c => c = ']') then some (rest.takeWhile (fun c => c ≠ ']')) else none
  else none

/-- Modelled from the spec: the message text of the bound-exceeded per-field
error (design sections 4.3 and 7); the source text is not in the snapshot. -/
def oversizeMsg : String :=
  "index exceeds the maximum collection size"

/-- The result of scanning all keys for one collection path: the accumulated
`recursiveData` record and the per-field errors recorded on the way. -/
structure collectOut where
  rd : recursiveData
  errs : List (String × String)
deriving DecidableEq

/-- Modelled from the spec: one step of the Index Collector (design section
4.3).  A key not matching the path is skipped; a numeric token at or beyond
the configured maximum is rejected as a per-field error keyed by the
collection path (not sized); a numeric token below the bound raises the
discovered length to `index + 1` saturating at the running maximum; a
non-numeric token is recorded verbatim for map-key use. -/
def collectStep (pfx : String) (maxSize : Nat) (acc : collectOut) (k : String) : collectOut :=
  match bracketToken pfx.data k.data with
  | none => acc
  | some tok =>
    match natToken tok with
    | some i =>
      if maxSize ≤ i then
        { acc with errs := acc.errs ++ [(pfx, oversizeMsg)] }
      else
        { acc with rd :=
            { acc.rd with
              sliceLen := max acc.rd.sliceLen (i + 1)
              keys := acc.rd.keys ++ [⟨Int.ofNat i, String.mk tok, k⟩] } }
    | none =>
      { acc with rd := { acc.rd with keys := acc.rd.keys ++ [⟨-1, String.mk tok, k⟩] } }

/-- Modelled from the spec: the Index Collector (design section 4.3), scanning
every key of the input mapping for a given collection path. -/
def indicesFor (allKeys : List String) (pfx : String) (maxSize : Nat) : collectOut :=
  allKeys.foldl (collectStep pfx maxSize) ⟨⟨pfx, 0, []⟩, []⟩

/-- Single-value lookup of a key in the input mapping (Go
`values[key]` consulted at index 0), by exact key equality. -/
def lookupVal (m : List (String × String)) (k : String) : Option String :=
  (m.find? (fun kv => kv.1 == k)).map (fun kv => kv.2)

/-- Modelled from the spec: the slice branch of the Structural Traverser
(design section 4.4) at element type string.  The collector discovers the
indices; the slice is allocated at the discovered (bounded) length with zero
values, and each discovered numeric index receives the value stored under its
originating search key. -/
def decodeStringSlice (m : List (String × String)) (pfx : String) (maxSize : Nat) :
    List String × List (String × String) :=
  let c := indicesFor (m.map (fun kv => kv.1)) pfx maxSize
  let arr := c.rd.keys.foldl
    (fun a ky =>
      match ky.ivalue with
      | Int.ofNat i => a.set i ((lookupVal m ky.searchValue).getD "")
      | Int.negSucc _ => a)
    (List.replicate c.rd.sliceLen "")
  (arr, c.errs)

/-- Modelled from the spec: the shapes of record fields the claims exercise —
a scalar string field, a string-slice field, and a nested record field with
its sub-field names and whether a custom decode function is registered for
its declared type.  Each carries its resolved external name and its
flattening depth (design sections 4.1 and 4.4). -/
inductive FieldSpec where
  | scalar : String → Nat → FieldSpec
  | strSlice : String → Nat → FieldSpec
  | record : String → Nat → Bool → List String → FieldSpec
deriving DecidableEq

/-- The resolved external name of a field. -/
def FieldSpec.fname : FieldSpec → String
  | .scalar n _ => n
  | .strSlice n _ => n
  | .record n _ _ _ => n

/-- The flattening depth a field was promoted from. -/
def FieldSpec.fdepth : FieldSpec → Nat
  | .scalar _ d => d
  | .strSlice _ d => d
  | .record _ d _ _ => d

/-- Modelled from the spec: ambiguity detection at cache-build time (design
section 4.1) — a field is ambiguous iff some other field of the same record
has the same resolved name at the same flattening depth. -/
def ambiguousAt (fields : List FieldSpec) (i : Nat) : Bool :=
  (List.range fields.length).any fun j =>
    j != i && (fields[j]?.map FieldSpec.fname == fields[i]?.map FieldSpec.fname)
      && (fields[j]?.map FieldSpec.fdepth == fields[i]?.map FieldSpec.fdepth)

/-- The decoded outcome of one field: skipped (zero value) for ambiguous
fields, a scalar assignment, a slice, a custom-function invocation on the raw
string found at the record's own path, or a plain nested-record decode of the
sub-fields. -/
inductive FieldOut where
  | unset : FieldOut
  | str : Option String → FieldOut
  | slice : List String → FieldOut
  | custom : String → FieldOut
  | recOut : List (Option String) → FieldOut
deriving DecidableEq

/-- Modelled from the spec: decoding a single non-ambiguous field (design
section 4.4).  A scalar looks its path up directly; a slice runs index
collection; a record with a registered custom function hands the subtree to
that function iff a literal mapping entry exists at exactly the record's
path, and otherwise (as without a custom function) decodes its sub-fields
under the dot-joined paths. -/
def decodeField (m : List (String × String)) (maxSize : Nat) :
    FieldSpec → FieldOut × List (String × String)
  | .scalar nm _ => (FieldOut.str (lookupVal m nm), [])
  | .strSlice nm _ =>
    let p := decodeStringSlice m nm maxSize
    (FieldOut.slice p.1, p.2)
  | .record nm _ hasCustom subs =>
    if hasCustom then
      match lookupVal m nm with
      | some raw => (FieldOut.custom raw, [])
      | none => (FieldOut.recOut (subs.map fun s => lookupVal m (nm ++ "." ++ s)), [])
    else
      (FieldOut.recOut (subs.map fun s => lookupVal m (nm ++ "." ++ s)), [])

/-- Modelled from the spec: the field loop of the Structural Traverser
(design section 4.4) — every field yields an outcome, ambiguous fields are
skipped, per-field errors are appended and never abort the loop.  `n` is the
index of the first field of `l` within the full field list `all`. -/
def decodeStructAux (all : List FieldSpec) (m : List (String × String)) (maxSize : Nat) :
    Nat → List FieldSpec → List FieldOut × List (String × String)
  | _, [] => ([], [])
  | n, f :: rest =>
    let cur := if ambiguousAt all n then (FieldOut.unset, []) else decodeField m maxSize f
    let tail := decodeStructAux all m maxSize (n + 1) rest
    (cur.1 :: tail.1, cur.2 ++ tail.2)

/-- Modelled from the spec: decoding one record — run the field loop over the
whole descriptor list. -/
def decodeStruct (fields : List FieldSpec) (m : List (String × String)) (maxSize : Nat) :
    List FieldOut × List (String × String) :=
  decodeStructAux fields m maxSize 0 fields

theorem decodeStructAux_length (all : List FieldSpec) (m : List (String × String))
    (maxSize : Nat) : ∀ (l : List FieldSpec) (n : Nat),
    (decodeStructAux all m maxSize n l).1.length = l.length := by
  intro l
  induction l with
  | nil => intro n; simp [decodeStructAux]
  | cons f rest ih =>
    intro n
    simp [decodeStructAux, ih (n + 1)]

theorem decodeStructAux_get (all : List FieldSpec) (m : List (String × String))
    (maxSize : Nat) : ∀ (l : List FieldSpec) (n k : Nat),
    (decodeStructAux all m maxSize n l).1[k]? =
      (l[k]?).map
        (fun f => if ambiguousAt all (n + k) then FieldOut.unset else (decodeField m maxSize f).1) := by
  intro l
  induction l with
  | nil => intro n k; simp [decodeStructAux]
  | cons f rest ih =>
    intro n k
    cases k with
    | zero =>
      simp only [decodeStructAux, List.getElem?_cons_zero, Option.map_some, Nat.add_zero]
      by_cases hamb : ambiguousAt all n
      · simp [hamb]
      · simp [hamb]
    | succ k2 =>
      simp only [decodeStructAux, List.getElem?_cons_succ]
      rw [ih (n + 1) k2]
      have harith : n + (k2 + 1) = n + 1 + k2 := by omega
      rw [harith]

theorem decodeStructAux_errs_sub (all : List FieldSpec) (m : List (String × String))
    (maxSize : Nat) : ∀ (l : List FieldSpec) (n k : Nat) (f : FieldSpec),
    l[k]? = some f → ambiguousAt all (n + k) = false →
    ∀ e ∈ (decodeField m maxSize f).2, e ∈ (decodeStructAux all m maxSize n l).2 := by
  intro l
  induction l with
  | nil => intro n k f hf; simp at hf
  | cons g rest ih =>
    intro n k f hf hamb e he
    cases k with
    | zero =>
      simp only [List.getElem?_cons_zero, Option.some.injEq] at hf
      subst hf
      rw [Nat.add_zero] at hamb
      simp only [decodeStructAux, hamb, Bool.false_eq_true, if_false]
      exact List.mem_append_left _ he
    | succ k2 =>
      simp only [List.getElem?_cons_succ] at hf
      have harith : n + (k2 + 1) = n + 1 + k2 := by omega
      rw [harith] at hamb
      simp only [decodeStructAux]
      exact List.mem_append_right _ (ih (n + 1) k2 f hf hamb e he)

theorem ambiguous_of_collision (fields : List FieldSpec) (i j : Nat) (hij : j ≠ i)
    (hj : j < fields.length)
    (hname : fields[j]?.map FieldSpec.fname = fields[i]?.map FieldSpec.fname)
    (hdepth : fields[j]?.map FieldSpec.fdepth = fields[i]?.map FieldSpec.fdepth) :
    ambiguousAt fields i = true := by
  unfold ambiguousAt
  rw [List.any_eq_true]
  refine ⟨j, List.mem_range.mpr hj, ?_⟩
  simp [hij, hname, hdepth]

theorem strDataAppend (a b : String) : (a ++ b).data = a.data ++ b.data := by
  cases a
  cases b
  rfl

theorem Decode_ptr_eq (ctx : DecoderCtx) (elem : GoType)
    (values : List (String × List String)) (collect : List Nat) (tr : TraversalOutcome) :
    Decode ctx (GoTarget.ptr elem) values collect tr =
      ⟨⟨values, tr.dms, ctx.namespaceBuf,
          if ctx.errs ++ tr.errs ≠ [] then [] else ctx.errs ++ tr.errs,
          if (elem.kind = GoKind.kstruct ∧ elem ≠ timeType) ∧ collect ≠ [] then collect.head?
          else ctx.goValues,
          false⟩,
        if ctx.errs ++ tr.errs ≠ [] then DecodeResult.fieldErrors (ctx.errs ++ tr.errs)
        else DecodeResult.ok,
        match (if (elem.kind = GoKind.kstruct ∧ elem ≠ timeType) ∧ collect ≠ [] then collect.head?
          else ctx.goValues) with
        | some s => tr.sinkWrites.map (fun kv => (s, kv.1, kv.2))
        | none => []⟩ := by
  have hg : ¬((GoTarget.ptr elem).kindOf ≠ GoKind.kptr ∨ (GoTarget.ptr elem).isNilPtrVal = true) := by
    simp [GoTarget.kindOf, GoTarget.isNilPtrVal]
  unfold Decode
  rw [if_neg hg]
  by_cases hc : (elem.kind = GoKind.kstruct ∧ elem ≠ timeType) ∧ collect ≠ []
  · simp only [GoTarget.elemType, if_pos hc]
  · simp only [GoTarget.elemType, if_neg hc]

/-- C1: index discovery for prefix A over the mapping with keys A[0] and A[2]
sizes the collection at the maximal numeric index plus one, so decoding
yields a collection of length 3 holding the decoded values at positions 0
and 2 and the element zero value at position 1. -/
theorem claim_C1_index_discovery :
    decodeStringSlice [("A[0]", "x"), ("A[2]", "y")] "A" 10000 = (["x", "", "y"], []) ∧
    (decodeStringSlice [("A[0]", "x"), ("A[2]", "y")] "A" 10000).1.length = 3 := by
  decide

/-- C2: a decode call whose target is not a non-nil pointer returns the
invalid-target error recording the target's dynamic type, touches neither
the scratch context nor the input mapping and writes nothing through the
sink, and the error's rendering names the offending type whenever the
target has one. -/
theorem claim_C2_invalid_target (ctx : DecoderCtx) (target : GoTarget)
    (values : List (String × List String)) (collect : List Nat) (tr : TraversalOutcome)
    (h : target.kindOf ≠ GoKind.kptr ∨ target.isNilPtrVal = true) :
    Decode ctx target values collect tr = ⟨ctx, DecodeResult.invalidTarget target.typeOf, []⟩ ∧
    ∀ t, target.typeOf = some t →
      t.name.data <:+: (invalidDecoderErrorMessage target.typeOf).data := by
  constructor
  · unfold Decode
    rw [if_pos h]
  · intro t ht
    rw [ht]
    unfold invalidDecoderErrorMessage
    by_cases hk : t.kind = GoKind.kptr
    · simp only [hk, ne_eq, not_true_eq_false, if_false]
      rw [strDataAppend, strDataAppend]
      exact List.infix_append _ _ _
    · simp only [ne_eq, hk, not_false_eq_true, if_true]
      rw [strDataAppend, strDataAppend]
      exact List.infix_append _ _ _

/-- C2 witness: decoding into a plain (non-pointer) int value is rejected
with the invalid-target error naming the int type, leaving everything
untouched. -/
theorem claim_C2_witness :
    Decode emptyCtx (GoTarget.plainValue ⟨"int", GoKind.kother⟩) [] [] emptyTr =
      ⟨emptyCtx, DecodeResult.invalidTarget (some ⟨"int", GoKind.kother⟩), []⟩ ∧
    ∀ t, (GoTarget.plainValue ⟨"int", GoKind.kother⟩).typeOf = some t →
      t.name.data <:+:
        (invalidDecoderErrorMessage (GoTarget.plainValue ⟨"int", GoKind.kother⟩).typeOf).data :=
  claim_C2_invalid_target emptyCtx (GoTarget.plainValue ⟨"int", GoKind.kother⟩) [] [] emptyTr
    (Or.inl (by decide))

/-- C3: a decode call with a valid non-nil pointer target returns nil iff
the traversal recorded no per-field error, and returns the composite made of
exactly the recorded errors otherwise (the scratch context coming from the
pool with an empty error set). -/
theorem claim_C3_composite_iff_errors (ctx : DecoderCtx) (elem : GoType)
    (values : List (String × List String)) (collect : List Nat) (tr : TraversalOutcome)
    (h : ctx.errs = []) :
    ((Decode ctx (GoTarget.ptr elem) values collect tr).result = DecodeResult.ok ↔
      tr.errs = []) ∧
    (tr.errs ≠ [] →
      (Decode ctx (GoTarget.ptr elem) values collect tr).result =
        DecodeResult.fieldErrors tr.errs) := by
  rw [Decode_ptr_eq]
  simp only [h, List.nil_append]
  by_cases he : tr.errs = []
  · simp [he]
  · simp [he]

/-- C3 witness: with a pool-fresh context, a traversal recording one error
makes the call return exactly that composite, and the call is not nil. -/
theorem claim_C3_witness :
    ((Decode emptyCtx (GoTarget.ptr ⟨"main.T", GoKind.kstruct⟩) [] []
        ⟨[("f", "bad")], [], []⟩).result = DecodeResult.ok ↔
      ([("f", "bad")] : List (String × String)) = []) ∧
    (([("f", "bad")] : List (String × String)) ≠ [] →
      (Decode emptyCtx (GoTarget.ptr ⟨"main.T", GoKind.kstruct⟩) [] []
          ⟨[("f", "bad")], [], []⟩).result = DecodeResult.fieldErrors [("f", "bad")]) :=
  claim_C3_composite_iff_errors emptyCtx ⟨"main.T", GoKind.kstruct⟩ [] []
    ⟨[("f", "bad")], [], []⟩ rfl

/-- The context produced by a first decode call that supplied the sink map
identified as 7 (used to exercise pool reuse). -/
def reusedCtx : DecoderCtx :=
  (Decode emptyCtx (GoTarget.ptr ⟨"main.A", GoKind.kstruct⟩) [("name", ["alice"])] [7]
    ⟨[], [("name", "alice")], []⟩).ctx

/-- C5: the recycled context is NOT fully reset — after a first call that
supplied a sink, a second call on the recycled context that supplies no sink
still holds the first caller's sink reference, and its mirrored leaf writes
land in the first caller's map. -/
theorem claim_C5_sink_survives_pool_reuse :
    (Decode reusedCtx (GoTarget.ptr ⟨"main.B", GoKind.kstruct⟩) [("name", ["bob"])] []
        ⟨[], [("name", "bob")], []⟩).ctx.goValues = some 7 ∧
    (Decode reusedCtx (GoTarget.ptr ⟨"main.B", GoKind.kstruct⟩) [("name", ["bob"])] []
        ⟨[], [("name", "bob")], []⟩).sinkPuts = [(7, "name", "bob")] := by
  decide

/-- C9: the invalid-target error's rendering distinguishes the three cases —
nil recorded type, non-pointer recorded type, pointer recorded type. -/
theorem claim_C9_message_cases :
    invalidDecoderErrorMessage none = "form: Decode(nil)" ∧
    (∀ t : GoType, t.kind ≠ GoKind.kptr →
      invalidDecoderErrorMessage (some t) = "form: Decode(non-pointer " ++ t.name ++ ")") ∧
    (∀ t : GoType, t.kind = GoKind.kptr →
      invalidDecoderErrorMessage (some t) = "form: Decode(nil " ++ t.name ++ ")") := by
  refine ⟨rfl, ?_, ?_⟩
  · intro t ht
    simp [invalidDecoderErrorMessage, ht]
  · intro t ht
    simp [invalidDecoderErrorMessage, ht]

/-- C9 witness: the message for a non-pointer string type and for a nil
pointer to string. -/
theorem claim_C9_witness :
    invalidDecoderErrorMessage (some ⟨"string", GoKind.kother⟩) =
      "form: Decode(non-pointer string)" ∧
    invalidDecoderErrorMessage (some (ptrTo ⟨"string", GoKind.kother⟩)) =
      "form: Decode(nil *string)" := by
  constructor
  · exact (claim_C9_message_cases.2.1 ⟨"string", GoKind.kother⟩ (by decide)).trans (by decide)
  · exact (claim_C9_message_cases.2.2 (ptrTo ⟨"string", GoKind.kother⟩) (by decide)).trans (by decide)

/-- C10: the supplied sink is attached to the context exactly when the
pointee is a struct type other than time.Time and a sink argument was given;
with no sink argument, or a pointee that is not such a struct, the field is
left as it was, and a call on a fresh context with a non-struct pointee
performs no sink write at all. -/
theorem claim_C10_sink_attachment (ctx : DecoderCtx) (elem : GoType)
    (values : List (String × List String)) (collect : List Nat) (tr : TraversalOutcome) :
    ((elem.kind = GoKind.kstruct ∧ elem ≠ timeType) → collect ≠ [] →
      (Decode ctx (GoTarget.ptr elem) values collect tr).ctx.goValues = collect.head?) ∧
    (collect = [] →
      (Decode ctx (GoTarget.ptr elem) values collect tr).ctx.goValues = ctx.goValues) ∧
    (¬(elem.kind = GoKind.kstruct ∧ elem ≠ timeType) →
      (Decode ctx (GoTarget.ptr elem) values collect tr).ctx.goValues = ctx.goValues ∧
      (ctx.goValues = none →
        (Decode ctx (GoTarget.ptr elem) values collect tr).sinkPuts = [])) := by
  rw [Decode_ptr_eq]
  refine ⟨?_, ?_, ?_⟩
  · intro h1 h2
    simp [h1, h2]
  · intro h1
    simp [h1]
  · intro h1
    constructor
    · simp [h1]
    · intro h2
      simp [h1, h2]

/-- C10 witness: a struct pointee gets the supplied sink attached; an int
pointee leaves the (empty) sink reference untouched and produces no sink
write. -/
theorem claim_C10_witness :
    (Decode emptyCtx (GoTarget.ptr ⟨"main.User", GoKind.kstruct⟩) [] [5] emptyTr).ctx.goValues =
      some 5 ∧
    (Decode emptyCtx (GoTarget.ptr ⟨"int", GoKind.kother⟩) [] [5] emptyTr).ctx.goValues = none ∧
    (Decode emptyCtx (GoTarget.ptr ⟨"int", GoKind.kother⟩) [] [5] emptyTr).sinkPuts = [] := by
  refine ⟨?_, ?_, ?_⟩
  · exact ((claim_C10_sink_attachment emptyCtx ⟨"main.User", GoKind.kstruct⟩ [] [5] emptyTr).1
      (by decide) (by decide)).trans rfl
  · exact ((claim_C10_sink_attachment emptyCtx ⟨"int", GoKind.kother⟩ [] [5] emptyTr).2.2
      (by decide)).1
  · exact ((claim_C10_sink_attachment emptyCtx ⟨"int", GoKind.kother⟩ [] [5] emptyTr).2.2
      (by decide)).2 rfl

/-- C6: a field whose resolved external name collides with a sibling's at
the same flattening depth is never assigned: its decode outcome is the
skipped (zero) value for every input mapping, in particular for mappings
containing a key matching its path. -/
theorem claim_C6_ambiguous_never_assigned (fields : List FieldSpec)
    (m : List (String × String)) (maxSize i j : Nat) (hij : j ≠ i)
    (hi : i < fields.length) (hj : j < fields.length)
    (hname : fields[j]?.map FieldSpec.fname = fields[i]?.map FieldSpec.fname)
    (hdepth : fields[j]?.map FieldSpec.fdepth = fields[i]?.map FieldSpec.fdepth) :
    (decodeStruct fields m maxSize).1[i]? = some FieldOut.unset := by
  have hamb := ambiguous_of_collision fields i j hij hj hname hdepth
  unfold decodeStruct
  rw [decodeStructAux_get]
  rw [List.getElem?_eq_getElem hi]
  simp [hamb]

/-- C6 witness: two promoted fields resolving to the same name at the same
depth stay unset even though the mapping holds a matching key. -/
theorem claim_C6_witness :
    (decodeStruct [FieldSpec.scalar "Field" 0, FieldSpec.scalar "Field" 0]
        [("Field", "v")] 10000).1[0]? = some FieldOut.unset :=
  claim_C6_ambiguous_never_assigned
    [FieldSpec.scalar "Field" 0, FieldSpec.scalar "Field" 0] [("Field", "v")] 10000 0 1
    (by decide) (by decide) (by decide) (by decide) (by decide)

/-- C7: a non-ambiguous record field whose declared type has a registered
custom decode function hands the subtree to that function exactly when the
input mapping holds a literal entry whose key equals the record's resolved
path; when no such literal entry exists (in particular when only descendant
keys are present) the record is decoded field by field instead. -/
theorem claim_C7_custom_iff_literal_entry (fields : List FieldSpec)
    (m : List (String × String)) (maxSize i : Nat) (nm : String) (d : Nat)
    (subs : List String)
    (hf : fields[i]? = some (FieldSpec.record nm d true subs))
    (hna : ambiguousAt fields i = false) :
    (∀ raw, (decodeStruct fields m maxSize).1[i]? = some (FieldOut.custom raw) ↔
      lookupVal m nm = some raw) ∧
    (lookupVal m nm = none →
      (decodeStruct fields m maxSize).1[i]? =
        some (FieldOut.recOut (subs.map fun s => lookupVal m (nm ++ "." ++ s)))) := by
  unfold decodeStruct
  rw [decodeStructAux_get, hf]
  simp only [Nat.zero_add, hna, Bool.false_eq_true, if_false, Option.map_some]
  constructor
  · intro raw
    cases h : lookupVal m nm with
    | none => simp [decodeField, h]
    | some v => simp [decodeField, h, eq_comm]
  · intro h
    simp [decodeField, h]

/-- C7 witness: with only the descendant key User.Name present the custom
function is not invoked and the sub-field decodes; with a literal User entry
present the custom function receives the raw value. -/
theorem claim_C7_witness :
    (decodeStruct [FieldSpec.record "User" 0 true ["Name"]]
        [("User.Name", "joe")] 10000).1[0]? =
      some (FieldOut.recOut [lookupVal [("User.Name", "joe")] ("User" ++ "." ++ "Name")]) ∧
    ((decodeStruct [FieldSpec.record "User" 0 true ["Name"]]
        [("User", "blob")] 10000).1[0]? = some (FieldOut.custom "blob") ↔
      lookupVal [("User", "blob")] "User" = some "blob") := by
  constructor
  · exact (claim_C7_custom_iff_literal_entry [FieldSpec.record "User" 0 true ["Name"]]
      [("User.Name", "joe")] 10000 0 "User" 0 ["Name"] rfl (by decide)).2 (by decide)
  · exact (claim_C7_custom_iff_literal_entry [FieldSpec.record "User" 0 true ["Name"]]
      [("User", "blob")] 10000 0 "User" 0 ["Name"] rfl (by decide)).1 "blob"

theorem collectStep_errs_mono (pfx : String) (maxSize : Nat) (acc : collectOut) (k : String)
    (e : String × String) (he : e ∈ acc.errs) :
    e ∈ (collectStep pfx maxSize acc k).errs := by
  unfold collectStep
  split
  · exact he
  · split
    · split
      · exact List.mem_append_left _ he
      · exact he
    · exact he

theorem collectFold_errs_mono (pfx : String) (maxSize : Nat) :
    ∀ (l : List String) (acc : collectOut) (e : String × String), e ∈ acc.errs →
      e ∈ (l.foldl (collectStep pfx maxSize) acc).errs := by
  intro l
  induction l with
  | nil => intro acc e he; exact he
  | cons a rest ih =>
    intro acc e he
    exact ih _ e (collectStep_errs_mono pfx maxSize acc a e he)

theorem collectFold_oversize_mem (pfx : String) (maxSize j : Nat) (hj : maxSize ≤ j) :
    ∀ (l : List String) (acc : collectOut) (k : String), k ∈ l →
      (bracketToken pfx.data k.data).bind natToken = some j →
      (pfx, oversizeMsg) ∈ (l.foldl (collectStep pfx maxSize) acc).errs := by
  intro l
  induction l with
  | nil => intro acc k hk; simp at hk
  | cons a rest ih =>
    intro acc k hk hbt
    rw [List.foldl_cons]
    rcases List.mem_cons.mp hk with h | h
    · subst h
      apply collectFold_errs_mono
      rcases Option.bind_eq_some.mp hbt with ⟨tok, h1, h2⟩
      simp [collectStep, h1, h2, hj]
    · exact ih (collectStep pfx maxSize acc a) k h hbt

theorem collectStep_sliceLen_le (pfx : String) (maxSize : Nat) (acc : collectOut)
    (k : String) (hacc : acc.rd.sliceLen ≤ maxSize) :
    (collectStep pfx maxSize acc k).rd.sliceLen ≤ maxSize := by
  unfold collectStep
  split
  · exact hacc
  · split
    · split
      · exact hacc
      · next hle => exact max_le hacc (by omega)
    · exact hacc

theorem collectFold_sliceLen_le (pfx : String) (maxSize : Nat) :
    ∀ (l : List String) (acc : collectOut), acc.rd.sliceLen ≤ maxSize →
      (l.foldl (collectStep pfx maxSize) acc).rd.sliceLen ≤ maxSize := by
  intro l
  induction l with
  | nil => intro acc hacc; exact hacc
  | cons a rest ih =>
    intro acc hacc
    exact ih _ (collectStep_sliceLen_le pfx maxSize acc a hacc)

theorem fillFold_length (m : List (String × String)) :
    ∀ (ks : List key) (a : List String),
      (ks.foldl
        (fun a ky =>
          match ky.ivalue with
          | Int.ofNat i => a.set i ((lookupVal m ky.searchValue).getD "")
          | Int.negSucc _ => a) a).length = a.length := by
  intro ks
  induction ks with
  | nil => intro a; rfl
  | cons ky rest ih =>
    intro a
    rw [List.foldl_cons, ih]
    cases hiv : ky.ivalue with
    | ofNat i => simp
    | negSucc n2 => simp

theorem decodeStringSlice_length_le (m : List (String × String)) (pfx : String)
    (maxSize : Nat) : (decodeStringSlice m pfx maxSize).1.length ≤ maxSize := by
  simp only [decodeStringSlice]
  rw [fillFold_length, List.length_replicate]
  exact collectFold_sliceLen_le pfx maxSize _ _ (Nat.zero_le _)

/-- C4: a discovered numeric index at or above the configured maximum is
recorded as a per-field error keyed by the field's path; the field's
collection is never sized beyond the maximum (no such allocation), and the
decode is not aborted — every field still yields an outcome and every
non-ambiguous scalar sibling is still decoded from the mapping. -/
theorem claim_C4_oversize_per_field_error (fields : List FieldSpec)
    (m : List (String × String)) (maxSize i : Nat) (nm : String) (d : Nat)
    (k : String) (j : Nat)
    (hf : fields[i]? = some (FieldSpec.strSlice nm d))
    (hna : ambiguousAt fields i = false)
    (hk : k ∈ m.map (fun kv => kv.1))
    (htok : (bracketToken nm.data k.data).bind natToken = some j)
    (hj : maxSize ≤ j) :
    (nm, oversizeMsg) ∈ (decodeStruct fields m maxSize).2 ∧
    (∀ out, (decodeStruct fields m maxSize).1[i]? = some (FieldOut.slice out) →
      out.length ≤ maxSize) ∧
    (decodeStruct fields m maxSize).1.length = fields.length ∧
    (∀ i2 nm2 d2, fields[i2]? = some (FieldSpec.scalar nm2 d2) →
      ambiguousAt fields i2 = false →
      (decodeStruct fields m maxSize).1[i2]? = some (FieldOut.str (lookupVal m nm2))) := by
  refine ⟨?_, ?_, ?_, ?_⟩
  · unfold decodeStruct
    have hmem : (nm, oversizeMsg) ∈ (decodeField m maxSize (FieldSpec.strSlice nm d)).2 := by
      simp only [decodeField, decodeStringSlice, indicesFor]
      exact collectFold_oversize_mem nm maxSize j hj _ _ k hk htok
    exact decodeStructAux_errs_sub fields m maxSize fields 0 i (FieldSpec.strSlice nm d) hf
      (by rwa [Nat.zero_add]) _ hmem
  · intro out hout
    unfold decodeStruct at hout
    rw [decodeStructAux_get, hf] at hout
    simp only [Nat.zero_add, hna, Bool.false_eq_true, if_false, Option.map_some,
      Option.some.injEq] at hout
    have : out = (decodeStringSlice m nm maxSize).1 := by
      simpa [decodeField] using hout.symm
    rw [this]
    exact decodeStringSlice_length_le m nm maxSize
  · unfold decodeStruct
    exact decodeStructAux_length fields m maxSize fields 0
  · intro i2 nm2 d2 hf2 hna2
    unfold decodeStruct
    rw [decodeStructAux_get, hf2]
    simp [hna2, decodeField]

/-- C4 witness: a key carrying index 10000 against the default bound of
10000 yields the per-field error on path A, an empty (unallocated) slice,
and the sibling scalar B still decodes. -/
theorem claim_C4_witness :
    ("A", oversizeMsg) ∈
      (decodeStruct [FieldSpec.strSlice "A" 0, FieldSpec.scalar "B" 0]
        [("A[10000]", "x"), ("B", "b")] 10000).2 ∧
    (∀ out,
      (decodeStruct [FieldSpec.strSlice "A" 0, FieldSpec.scalar "B" 0]
        [("A[10000]", "x"), ("B", "b")] 10000).1[0]? = some (FieldOut.slice out) →
      out.length ≤ 10000) ∧
    (decodeStruct [FieldSpec.strSlice "A" 0, FieldSpec.scalar "B" 0]
        [("A[10000]", "x"), ("B", "b")] 10000).1.length =
      [FieldSpec.strSlice "A" 0, FieldSpec.scalar "B" 0].length ∧
    (∀ i2 nm2 d2,
      [FieldSpec.strSlice "A" 0, FieldSpec.scalar "B" 0][i2]? =
        some (FieldSpec.scalar nm2 d2) →
      ambiguousAt [FieldSpec.strSlice "A" 0, FieldSpec.scalar "B" 0] i2 = false →
      (decodeStruct [FieldSpec.strSlice "A" 0, FieldSpec.scalar "B" 0]
          [("A[10000]", "x"), ("B", "b")] 10000).1[i2]? =
        some (FieldOut.str (lookupVal [("A[10000]", "x"), ("B", "b")] nm2))) :=
  claim_C4_oversize_per_field_error
    [FieldSpec.strSlice "A" 0, FieldSpec.scalar "B" 0]
    [("A[10000]", "x"), ("B", "b")] 10000 0 "A" 0 "A[10000]" 10000
    (by decide) (by decide) (by decide) (by decide) (by decide)

/-- The rendered line of one composite-error entry (label, path, separator,
message), as characters. -/
def lineData (kv : String × String) : List Char :=
  (fieldNS ++ kv.1 ++ errorText ++ kv.2).data

/-- Lines joined by single newlines (no trailing newline). -/
def joinLines : List (List Char) → List Char
  | [] => []
  | [l] => l
  | l :: rest => l ++ '\n' :: joinLines rest

theorem newlineData : "\n".data = ['\n'] := rfl

theorem renderFold : ∀ (d : List (String × String)) (s : String),
    (d.foldl (fun buff kv => buff ++ fieldNS ++ kv.1 ++ errorText ++ kv.2 ++ "\n") s).data =
      s.data ++ (d.map (fun kv => lineData kv ++ ['\n'])).flatten := by
  intro d
  induction d with
  | nil => intro s; simp
  | cons kv rest ih =>
    intro s
    rw [List.foldl_cons, ih]
    simp [strDataAppend, lineData, newlineData, List.append_assoc]

theorem joinMap : ∀ (ls : List (List Char)), ls ≠ [] →
    (ls.map (fun l => l ++ ['\n'])).flatten = joinLines ls ++ ['\n'] := by
  intro ls
  induction ls with
  | nil => intro h; exact absurd rfl h
  | cons l rest ih =>
    intro _
    cases rest with
    | nil => simp [joinLines]
    | cons l2 rest2 =>
      rw [List.map_cons, List.flatten_cons, ih (by simp)]
      simp [joinLines, List.append_assoc]

theorem trimEndSpace_newline (l : List Char) :
    trimEndSpace (l ++ ['\n']) = trimEndSpace l := by
  unfold trimEndSpace
  rw [List.reverse_append]
  simp [List.dropWhile_cons, isSpaceGo]

theorem lineData_head (kv : String × String) : ∃ cs, lineData kv = 'F' :: cs := by
  refine ⟨"ield Namespace:".data ++ (kv.1.data ++ (errorText.data ++ kv.2.data)), ?_⟩
  simp only [lineData, strDataAppend, List.append_assoc]
  rw [show fieldNS.data = 'F' :: "ield Namespace:".data from rfl, List.cons_append]

theorem joinLines_first (l : List Char) (ls : List (List Char)) :
    ∃ t, joinLines (l :: ls) = l ++ t := by
  cases ls with
  | nil => exact ⟨[], by simp [joinLines]⟩
  | cons l2 rest2 => exact ⟨'\n' :: joinLines (l2 :: rest2), rfl⟩

/-- C8: rendering a non-empty composite error produces one line per
offending path carrying its underlying message, the lines joined by
newlines, with the whole result trimmed of trailing whitespace. -/
theorem claim_C8_render_lines (d : List (String × String)) (hd : d ≠ []) :
    decodeErrorsRender d = String.mk (trimEndSpace (joinLines (d.map lineData))) := by
  obtain ⟨kv, d2, rfl⟩ : ∃ kv d2, d = kv :: d2 := by
    cases d with
    | nil => exact absurd rfl hd
    | cons a b => exact ⟨a, b, rfl⟩
  unfold decodeErrorsRender trimSpaceGo
  rw [renderFold]
  have hmm : ((kv :: d2).map (fun p => lineData p ++ ['\n'])).flatten =
      (((kv :: d2).map lineData).map (fun l => l ++ ['\n'])).flatten := by
    rw [List.map_map]
    rfl
  rw [hmm, joinMap _ (by simp), show blank.data = [] from rfl, List.nil_append]
  obtain ⟨cs, hcs⟩ := lineData_head kv
  obtain ⟨t, ht⟩ := joinLines_first (lineData kv) (d2.map lineData)
  rw [List.map_cons, ht, hcs]
  rw [List.cons_append, List.cons_append, List.dropWhile_cons]
  rw [if_neg (by simp [isSpaceGo])]
  rw [← List.cons_append, ← List.cons_append, ← hcs, ← ht, ← List.map_cons]
  rw [trimEndSpace_newline]

/-- C8 witness: the two-entry composite renders as its two lines joined by a
single newline and carries no trailing whitespace. -/
theorem claim_C8_witness :
    decodeErrorsRender [("A", "e1"), ("B", "e2")] =
      String.mk (trimEndSpace (joinLines ([("A", "e1"), ("B", "e2")].map lineData))) ∧
    decodeErrorsRender [("A", "e1"), ("B", "e2")] =
      "Field Namespace:A ERROR:e1\nField Namespace:B ERROR:e2" :=
  ⟨claim_C8_render_lines [("A", "e1"), ("B", "e2")] (by decide), by decide⟩

end Form
